import Mathlib

/-!
Verification of the DF-InfoUI web client against its specification.

The definitions below are a shallow embedding of the client code:
* `src/web/src/types/index.ts` — the data model (job status, issues, fixes),
* `src/web/src/pages/JobDetailPage.tsx` — poll schedule and report-query gating,
* `src/web/src/components/IssueViewer.tsx` (and its diff-view variant) —
  per-category issue lists, per-tab fixes, and the unified-diff renderer,
* the report page (`ReportPage`) — summary numbers, compliance scores and
  the file-level analysis table,
* `src/web/src/pages/UploadPage.tsx` — the drop handler.

JavaScript numbers are modelled as `Int` (all values the claims touch are
integers) except fix confidence, modelled as `ℚ`; fields that are optional in
TypeScript are `Option`; JS `Record<string, number>` objects are association
lists; JS `Map` is an insertion-ordered association list.
-/

namespace DFInfoUI

/-- The `status` union type of `JobStatus` in `types/index.ts`. -/
inductive Status where
  | uploaded
  | planning
  | fixing
  | validating
  | complete
  | error
deriving DecidableEq, Repr

/-- The `category` union type of `Issue` in `types/index.ts` (POUR). -/
inductive Category where
  | perceivable
  | operable
  | understandable
  | robust
deriving DecidableEq, Repr

/-- The `severity` union type of `Issue` in `types/index.ts`. -/
inductive Severity where
  | high
  | medium
  | low
deriving DecidableEq, Repr

/-- The string name of a category, as used as a record key in summaries. -/
def Category.catName : Category → String
  | .perceivable => "perceivable"
  | .operable => "operable"
  | .understandable => "understandable"
  | .robust => "robust"

/-- `Issue` from `types/index.ts`. -/
structure Issue where
  id : String
  file_path : String
  line_start : Int
  line_end : Int
  category : Category
  severity : Severity
  description : String
  code_snippet : String
  rule_id : Option String
deriving DecidableEq, Repr

/-- `Fix` from `types/index.ts`. -/
structure Fix where
  issue_id : String
  file_path : String
  before_code : String
  after_code : String
  diff : String
  confidence : ℚ
  applied : Bool
deriving DecidableEq, Repr

/-- The optional `summary` record of `JobStatus` from `types/index.ts`.
`Record<string, number>` fields become association lists. -/
structure Summary where
  total_issues : Option Int
  total_fixes : Option Int
  issues_fixed : Option Int
  validation_passed : Option Bool
  remaining_issues : Option Int
  issues_by_category : Option (List (String × Int))
  fixes_by_category : Option (List (String × Int))
  issues_by_severity : Option (List (String × Int))
deriving DecidableEq, Repr

/-- A summary record with every optional field absent (the JS `{}` fallback). -/
def emptySummary : Summary :=
  ⟨none, none, none, none, none, none, none, none⟩

/-- `JobStatus` from `types/index.ts`. -/
structure JobStatusRec where
  job_id : String
  status : Status
  progress : Int
  message : String
  summary : Option Summary
deriving DecidableEq, Repr

/-- The report object returned by `getJobReport`, as consumed by
`ReportPage` and `IssueViewer`: every field is accessed defensively
(`report.summary || {}`, `report.issues || []`, `reportData.issues?.`), so
all three are optional. -/
structure Report where
  summary : Option Summary
  issues : Option (List Issue)
  fixes : Option (List Fix)
deriving DecidableEq, Repr

/-! ## JobDetailPage: poll schedule and report-query gating -/

/-- The data the `refetchInterval` callback reads from the query state:
`query.state.data as { status?: string } | undefined`. -/
structure PollData where
  status : Option String
deriving DecidableEq, Repr

/-- The `refetchInterval` callback of the job-status query in
`JobDetailPage.tsx` (lines 24–28).  `false` in JS becomes `none`; a numeric
interval becomes `some n`. -/
def refetchInterval (data : Option PollData) : Option Nat :=
  match data with
  | some d =>
      if d.status = some "complete" ∨ d.status = some "error" then none
      else some 2000
  | none => some 2000

/-- JS truthiness of a `string | undefined` value (`!!jobId`):
`undefined` and the empty string are falsy. -/
def truthyStr : Option String → Bool
  | none => false
  | some s => s ≠ ""

/-- The `enabled` option of the report query in `JobDetailPage.tsx`
(line 35): `!!jobId && jobStatus?.status === 'complete'`. -/
def reportQueryEnabled (jobId : Option String) (jobStatus : Option JobStatusRec) : Bool :=
  truthyStr jobId &&
    (match jobStatus with
     | some js => js.status == .complete
     | none => false)

/-! ## ReportPage: summary numbers (lines 58–67 of the report page) -/

/-- `const summary = report.summary || {}`. -/
def sumOf (r : Report) : Summary := r.summary.getD emptySummary

/-- `const issues = report.issues || []`. -/
def issuesOf (r : Report) : List Issue := r.issues.getD []

/-- `const fixes = report.fixes || []`. -/
def fixesOf (r : Report) : List Fix := r.fixes.getD []

/-- `const totalIssues = summary.total_issues ?? issues.length`. -/
def totalIssues (r : Report) : Int :=
  (sumOf r).total_issues.getD ((issuesOf r).length : Int)

/-- `const totalFixed = summary.total_fixes ?? fixes.length`. -/
def totalFixed (r : Report) : Int :=
  (sumOf r).total_fixes.getD ((fixesOf r).length : Int)

/-- `const remaining = summary.remaining_issues ?? Math.max(0, totalIssues - totalFixed)`. -/
def remaining (r : Report) : Int :=
  (sumOf r).remaining_issues.getD (max 0 (totalIssues r - totalFixed r))

/-- `const compliance = totalIssues > 0 ? Math.round((totalFixed / totalIssues) * 100) : 100`.
The rounded division of two JS numbers is modelled over `ℚ` (`Math.round`
rounds half towards `+∞`, as does Mathlib's `round`). -/
def compliance (r : Report) : Int :=
  if 0 < totalIssues r
  then round (((totalFixed r : ℚ) / (totalIssues r : ℚ)) * 100)
  else 100

/-- `const issuesByCategory = summary.issues_by_category || {}`. -/
def issuesByCategoryRec (r : Report) : List (String × Int) :=
  (sumOf r).issues_by_category.getD []

/-- `const fixesByCategory = summary.fixes_by_category || {}`. -/
def fixesByCategoryRec (r : Report) : List (String × Int) :=
  (sumOf r).fixes_by_category.getD []

/-- The per-category issue count read into `pourData`:
`issuesByCategory.<cat> ?? 0`. -/
def pourValue (r : Report) (c : Category) : Int :=
  (List.lookup c.catName (issuesByCategoryRec r)).getD 0

/-- `const fixed = fixesByCategory[d.name.toLowerCase()] ?? 0` on the POUR
and validation tabs. -/
def categoryFixed (r : Report) (c : Category) : Int :=
  (List.lookup c.catName (fixesByCategoryRec r)).getD 0

/-- `const pct = total ? Math.round((fixed / total) * 100) : 100` where
`total` is the category's `pourData` value (JS number truthiness: `0` is
falsy, every other value truthy). -/
def categoryPct (r : Report) (c : Category) : Int :=
  if pourValue r c ≠ 0
  then round (((categoryFixed r c : ℚ) / (pourValue r c : ℚ)) * 100)
  else 100

/-! ## IssueViewer: per-category issue lists and per-tab fixes -/

/-- `reportData.issues?.filter(issue => issue.category === c) || []`
(IssueViewer lines 44–49; a defined `filter` result is always truthy, so
the `|| []` branch fires only when `issues` is absent). -/
def issuesByCategory (r : Report) (c : Category) : List Issue :=
  match r.issues with
  | some is => is.filter (fun i => i.category == c)
  | none => []

/-- `currentCategoryFixes` (IssueViewer lines 52–55): the fixes whose
`issue_id` finds an issue whose category is the active tab. -/
def currentCategoryFixes (r : Report) (tab : Category) : List Fix :=
  match r.fixes with
  | some fs =>
      fs.filter (fun f =>
        match (issuesOf r).find? (fun i => i.id == f.issue_id) with
        | some i => i.category == tab
        | none => false)
  | none => []

/-- A report whose issue data is empty and whose summary is consistent with
that emptiness (each count field is absent or zero), as the orchestrator
produces for a zero-issue file set (spec §8, Scenario A). -/
def zeroIssueReport (r : Report) : Prop :=
  issuesOf r = [] ∧ fixesOf r = [] ∧
  ((sumOf r).total_issues = none ∨ (sumOf r).total_issues = some 0) ∧
  ((sumOf r).total_fixes = none ∨ (sumOf r).total_fixes = some 0) ∧
  ((sumOf r).remaining_issues = none ∨ (sumOf r).remaining_issues = some 0) ∧
  (List.lookup Category.perceivable.catName (issuesByCategoryRec r) = none ∨
    List.lookup Category.perceivable.catName (issuesByCategoryRec r) = some 0) ∧
  (List.lookup Category.operable.catName (issuesByCategoryRec r) = none ∨
    List.lookup Category.operable.catName (issuesByCategoryRec r) = some 0) ∧
  (List.lookup Category.understandable.catName (issuesByCategoryRec r) = none ∨
    List.lookup Category.understandable.catName (issuesByCategoryRec r) = some 0) ∧
  (List.lookup Category.robust.catName (issuesByCategoryRec r) = none ∨
    List.lookup Category.robust.catName (issuesByCategoryRec r) = some 0)

/-- A report whose summary omits `remaining_issues` and reports more fixes
than issues: the clamp `Math.max(0, …)` then makes the displayed remaining
count differ from `total_issues − total_fixes`. -/
def clampReport : Report :=
  { summary := some { emptySummary with total_issues := some 1, total_fixes := some 2 },
    issues := some [],
    fixes := some [] }

/-! ## Enumerations for the data-model claim -/

/-- The six admissible job statuses, in declaration order. -/
def statusValues : List Status :=
  [.uploaded, .planning, .fixing, .validating, .complete, .error]

/-- The four admissible POUR categories, in declaration order. -/
def categoryValues : List Category :=
  [.perceivable, .operable, .understandable, .robust]

/-! ## UploadPage: the onDrop handler -/

/-- A dropped file (only identity matters to the handler). -/
structure UFile where
  name : String
deriving DecidableEq, Repr

/-- The response body of a successful upload (`response.job_id`). -/
structure UploadResponse where
  job_id : String
deriving DecidableEq, Repr

/-- The rejection value of the upload request; `detail` is `some` exactly
when the thrown value carries `response.data.detail` as a string. -/
structure UploadError where
  detail : Option String
deriving DecidableEq, Repr

/-- The component state touched by `onDrop`, plus where `navigate` was last
called to (`none` = no navigation has happened). -/
structure UploadState where
  isUploading : Bool
  error : Option String
  navigatedTo : Option String
deriving DecidableEq, Repr

/-- The message computed in the catch branch of `onDrop`
(`UploadPage.tsx` lines 21–23). -/
def uploadErrorMessage (e : UploadError) : String :=
  e.detail.getD "Upload failed. Please try again."

/-- The `onDrop` handler of `UploadPage.tsx` (lines 13–29) as a state
transformer: given the pre-state, the accepted file list and the outcome of
the upload request, it yields the post-state (after the `finally` block)
and whether an upload request was issued at all. -/
def onDrop (st : UploadState) (acceptedFiles : List UFile)
    (result : Except UploadError UploadResponse) : UploadState × Bool :=
  if acceptedFiles.length = 0 then (st, false)
  else
    match result with
    | .ok resp =>
        ({ isUploading := false, error := none,
           navigatedTo := some ("/job/" ++ resp.job_id) }, true)
    | .error e =>
        ({ isUploading := false, error := some (uploadErrorMessage e),
           navigatedTo := st.navigatedTo }, true)

/-! ## Diff-view IssueViewer: renderDiffLines -/

/-- The five CSS classes a diff line can be rendered with. -/
inductive DiffClass where
  | hunkHeader
  | fileHeader
  | removed
  | added
  | context
deriving DecidableEq, Repr

/-- One rendered diff line: its class, its prefix glyph(s), and its content
(the whole original line).  JS strings are modelled as `List Char` here. -/
structure DiffLine where
  cls : DiffClass
  mark : List Char
  content : List Char
deriving DecidableEq, Repr

/-- Classification of one line by the first matching prefix in source order
(`renderDiffLines`, diff-view IssueViewer lines 102–117): `@@`, then
`---`/`+++`, then `-`, then `+`, else context. -/
def classifyDiffLine (line : List Char) : DiffClass × List Char :=
  if ['@', '@'].isPrefixOf line then (.hunkHeader, [])
  else if ['-', '-', '-'].isPrefixOf line ∨ ['+', '+', '+'].isPrefixOf line then
    (.fileHeader, [])
  else if ['-'].isPrefixOf line then (.removed, ['-'])
  else if ['+'].isPrefixOf line then (.added, ['+'])
  else (.context, [' '])

/-- `diff.split('\n')`: split a character sequence at newlines (JS yields
`['']` for the empty string, and a trailing empty piece for a trailing
newline, as this fold does). -/
def splitLines (s : List Char) : List (List Char) :=
  s.foldr
    (fun c acc =>
      match acc with
      | [] => [[c]]
      | cur :: rest => if c = '\n' then [] :: cur :: rest else (c :: cur) :: rest)
    [[]]

/-- `renderDiffLines` (diff-view IssueViewer lines 94–126): a falsy diff
(`null`/`undefined`/empty string) yields `null`; otherwise one rendered
element per line of `diff.split('\n')`. -/
def renderDiffLines (diff : Option (List Char)) : Option (List DiffLine) :=
  match diff with
  | none => none
  | some [] => none
  | some s =>
      some ((splitLines s).map
        (fun l => ⟨(classifyDiffLine l).1, (classifyDiffLine l).2, l⟩))

/-! ## ReportPage: file-level analysis (report page lines 83–105) -/

/-- One value of the `fileMap` used for the file-level analysis table. -/
structure FileRow where
  total : Nat
  fixed : Nat
  perceivable : Nat
  operable : Nat
  understandable : Nat
  robust : Nat
deriving DecidableEq, Repr

/-- The zero row inserted for a newly seen file. -/
def emptyFileRow : FileRow := ⟨0, 0, 0, 0, 0, 0⟩

/-- `fileMap` is a JS `Map`: an insertion-ordered association list. -/
abbrev FileMap := List (String × FileRow)

/-- `fileMap.get(key)` (and `has` via `isSome`). -/
def mapLookup (m : FileMap) (k : String) : Option FileRow :=
  match m with
  | [] => none
  | (k2, v) :: rest => if k2 = k then some v else mapLookup rest k

/-- In-place mutation of the row stored at an existing key. -/
def mapUpdate (m : FileMap) (k : String) (f : FileRow → FileRow) : FileMap :=
  match m with
  | [] => []
  | (k2, v) :: rest =>
      if k2 = k then (k2, f v) :: rest else (k2, v) :: mapUpdate rest k f

/-- `row.total++` and `row[issue.category]++` for one issue (the category
key always names one of the numeric row fields, so the `!== undefined`
guard in the source always passes for a well-typed issue). -/
def bumpIssue (row : FileRow) (c : Category) : FileRow :=
  let row2 := { row with total := row.total + 1 }
  match c with
  | .perceivable => { row2 with perceivable := row2.perceivable + 1 }
  | .operable => { row2 with operable := row2.operable + 1 }
  | .understandable => { row2 with understandable := row2.understandable + 1 }
  | .robust => { row2 with robust := row2.robust + 1 }

/-- `fileMap.get(issue.file_path)!.fixed++`. -/
def bumpFixed (row : FileRow) : FileRow := { row with fixed := row.fixed + 1 }

/-- The `issues.forEach` body: insert a zero row for a newly seen file,
then bump that file's counters. -/
def addIssueToMap (m : FileMap) (i : Issue) : FileMap :=
  mapUpdate
    (if (mapLookup m i.file_path).isSome then m
     else m ++ [(i.file_path, emptyFileRow)])
    i.file_path (fun row => bumpIssue row i.category)

/-- The `fixes.forEach` body: resolve the fix's issue with `issues.find`,
and — when the resolved `file_path` is truthy (non-empty) and present in
the map — bump that file's `fixed` counter. -/
def addFixToMap (issues : List Issue) (m : FileMap) (f : Fix) : FileMap :=
  match issues.find? (fun i => i.id == f.issue_id) with
  | some i =>
      if i.file_path ≠ "" ∧ (mapLookup m i.file_path).isSome then
        mapUpdate m i.file_path bumpFixed
      else m
  | none => m

/-- The fully populated `fileMap`: the issues pass then the fixes pass. -/
def buildFileMap (issues : List Issue) (fixes : List Fix) : FileMap :=
  fixes.foldl (addFixToMap issues) (issues.foldl addIssueToMap [])

/-- The file the fix's `issue_id` resolves to: the `file_path` of the first
issue whose id matches. -/
def resolvedFile (issues : List Issue) (f : Fix) : Option String :=
  (issues.find? (fun i => i.id == f.issue_id)).map Issue.file_path

/-- Whether one fix bumps the `fixed` counter of the key `q`: its issue
resolves to `q` and `q` is truthy (specification value used to
characterise the fixes pass). -/
def fixHitsKey (issues : List Issue) (q : String) (f : Fix) : Bool :=
  resolvedFile issues f == some q && !(q == "")

/-- The severity label of a file row (report page line 104). -/
def severityLabel (total : Nat) : String :=
  if total > 10 then "Critical"
  else if total > 5 then "High"
  else if total > 2 then "Medium"
  else "Low"

/-- One row of `fileAnalysisRows`. -/
structure AnalysisRow where
  file : String
  total : Nat
  fixed : Nat
  perceivable : Nat
  operable : Nat
  understandable : Nat
  robust : Nat
  remaining : Int
  severity : String
deriving DecidableEq, Repr

/-- `fileAnalysisRows` (report page lines 100–105): one row per map entry,
with `remaining = total - fixed`. -/
def fileAnalysisRows (issues : List Issue) (fixes : List Fix) : List AnalysisRow :=
  (buildFileMap issues fixes).map
    (fun p => ⟨p.1, p.2.total, p.2.fixed, p.2.perceivable, p.2.operable,
      p.2.understandable, p.2.robust, (p.2.total : Int) - (p.2.fixed : Int),
      severityLabel p.2.total⟩)

/-- The counters a list of issues contributes to the row of the file `k`
(specification value used to characterise the issues pass). -/
def issueContrib (is : List Issue) (k : String) (row : FileRow) : FileRow :=
  { total := row.total + is.countP (fun i => i.file_path == k)
    fixed := row.fixed
    perceivable := row.perceivable +
      is.countP (fun i => i.file_path == k && i.category == Category.perceivable)
    operable := row.operable +
      is.countP (fun i => i.file_path == k && i.category == Category.operable)
    understandable := row.understandable +
      is.countP (fun i => i.file_path == k && i.category == Category.understandable)
    robust := row.robust +
      is.countP (fun i => i.file_path == k && i.category == Category.robust) }

/-- The report whose issue/fix lists are absent altogether. -/
def emptyReport : Report := ⟨none, none, none⟩

/-- A one-issue sample report used to instantiate the IssueViewer theorems. -/
def sampleIssue : Issue :=
  ⟨"i1", "index.html", 3, 4, .perceivable, .high, "img missing alt", "<img>", none⟩

/-- A fix referencing `sampleIssue`. -/
def sampleFix : Fix :=
  ⟨"i1", "index.html", "<img>", "<img alt=--/>", "", 9/10, true⟩

/-- Report holding `sampleIssue` and `sampleFix`. -/
def sampleReport : Report := ⟨none, some [sampleIssue], some [sampleFix]⟩

/-- An issue whose `file_path` is the empty string (falsy in JS). -/
def emptyPathIssue : Issue :=
  ⟨"i0", "", 1, 1, .robust, .low, "lang attr", "<html>", none⟩

/-- The unique fix referencing `emptyPathIssue`. -/
def emptyPathFix : Fix :=
  ⟨"i0", "", "<html>", "<html lang=en>", "", 1, true⟩

/-- A report with one fixed issue whose file path is empty: the truthiness
guard of the fixes pass drops the fix for the file-level table. -/
def emptyPathReport : Report :=
  ⟨none, some [emptyPathIssue], some [emptyPathFix]⟩

/-- Report used to instantiate the amended remaining-issues theorem. -/
def okReport : Report :=
  { summary := some { emptySummary with total_issues := some 3, total_fixes := some 1 },
    issues := some [],
    fixes := some [] }

/-! ## Theorems -/

/-- Splitting an issue list by the four categories preserves total length. -/
theorem length_filter_category_partition (is : List Issue) :
    (is.filter (fun i => i.category == Category.perceivable)).length +
      (is.filter (fun i => i.category == Category.operable)).length +
      (is.filter (fun i => i.category == Category.understandable)).length +
      (is.filter (fun i => i.category == Category.robust)).length = is.length := by
  induction is with
  | nil => rfl
  | cons i tl ih =>
      cases h : i.category <;> simp [List.filter_cons, h] <;> omega

/-- C4: the poll schedule computed by `JobDetailPage` depends only on the
last observed status: it is `false` (stop polling) exactly when that status
is `complete` or `error`, and the fixed 2000 ms interval otherwise. -/
theorem refetchInterval_terminal_iff (d : Option PollData) :
    refetchInterval d =
      (if (∃ p, d = some p ∧ (p.status = some "complete" ∨ p.status = some "error"))
       then none else some 2000) := by
  match d with
  | none => simp [refetchInterval]
  | some p =>
      by_cases h : p.status = some "complete" ∨ p.status = some "error" <;>
        simp [refetchInterval, h]

/-- C5: the report query is enabled iff a (non-empty) job id is present and
the polled job status is `complete`; for any other status it is disabled. -/
theorem reportQueryEnabled_iff (jid : Option String) (js : Option JobStatusRec) :
    (reportQueryEnabled jid js = true ↔
      (truthyStr jid = true ∧ ∃ st, js = some st ∧ st.status = Status.complete)) ∧
    (∀ st, js = some st → st.status ≠ Status.complete →
      reportQueryEnabled jid js = false) := by
  constructor
  · match js with
    | none => simp [reportQueryEnabled]
    | some st =>
        simp only [reportQueryEnabled, Bool.and_eq_true, beq_iff_eq]
        constructor
        · rintro ⟨h1, h2⟩
          exact ⟨h1, st, rfl, h2⟩
        · rintro ⟨h1, st2, heq, h2⟩
          cases heq
          exact ⟨h1, h2⟩
  · intro st heq hne
    subst heq
    simp [reportQueryEnabled, hne]

/-- Witness for C5 at a concrete input with `complete` status. -/
theorem reportQueryEnabled_iff_witness :
    reportQueryEnabled (some "j1")
      (some ⟨"j1", .complete, 100, "done", none⟩) = true :=
  (reportQueryEnabled_iff (some "j1")
      (some ⟨"j1", .complete, 100, "done", none⟩)).1.mpr
    ⟨by decide, ⟨"j1", .complete, 100, "done", none⟩, rfl, rfl⟩

/-- C8: the embedded data model admits exactly the six job statuses
{uploaded, planning, fixing, validating, complete, error} and exactly the
four POUR categories, and every issue's category is one of the four. -/
theorem status_category_enumeration :
    (∀ s : Status, s ∈ statusValues) ∧ statusValues.Nodup ∧
      statusValues.length = 6 ∧
    (∀ c : Category, c ∈ categoryValues) ∧ categoryValues.Nodup ∧
      categoryValues.length = 4 ∧
    (∀ i : Issue, i.category ∈ categoryValues) := by
  refine ⟨fun s => ?_, by decide, by decide, fun c => ?_, by decide, by decide,
    fun i => ?_⟩
  · cases s <;> simp [statusValues]
  · cases c <;> simp [categoryValues]
  · cases h : i.category <;> simp [categoryValues]

/-- C1 (counterexample): the displayed remaining count is not always
`total_issues − total_fixes`: with `remaining_issues` omitted and
`total_fixes = 2 > total_issues = 1`, the clamp `Math.max(0, …)` displays
`0` while the difference is `−1`. -/
theorem remaining_ne_sub_counterexample :
    remaining clampReport ≠ totalIssues clampReport - totalFixed clampReport := by
  decide

/-- C1 (amended): when the summary omits `remaining_issues` and does not
report more fixes than issues, the derived remaining count equals
`total_issues − total_fixes` (in general the code displays
`max 0 (total_issues − total_fixes)`, and a summary-supplied
`remaining_issues` is displayed unchanged). -/
theorem remaining_eq_sub_of_le (r : Report)
    (h0 : (sumOf r).remaining_issues = none)
    (hle : totalFixed r ≤ totalIssues r) :
    remaining r = totalIssues r - totalFixed r := by
  rw [remaining, h0, Option.getD_none]
  exact max_eq_right (by omega)

/-- Witness for the amended C1 at a concrete report (3 issues, 1 fix). -/
theorem remaining_eq_sub_of_le_witness :
    (sumOf okReport).remaining_issues = none ∧
      totalFixed okReport ≤ totalIssues okReport ∧
      remaining okReport = totalIssues okReport - totalFixed okReport :=
  ⟨rfl, by decide, remaining_eq_sub_of_le okReport rfl (by decide)⟩

/-- C2: the four per-category lists computed by `IssueViewer` partition the
report's issues: an issue is in the list of a category iff it is one of the
report's issues of that category, and the four tab counts sum to the total
number of issues. -/
theorem issuesByCategory_partition (r : Report) :
    (∀ (c : Category) (i : Issue),
      i ∈ issuesByCategory r c ↔ (i ∈ issuesOf r ∧ i.category = c)) ∧
    (issuesByCategory r .perceivable).length + (issuesByCategory r .operable).length +
      (issuesByCategory r .understandable).length + (issuesByCategory r .robust).length
      = (issuesOf r).length := by
  constructor
  · intro c i
    match hr : r.issues with
    | none => simp [issuesByCategory, issuesOf, hr]
    | some is => simp [issuesByCategory, issuesOf, hr, List.mem_filter]
  · match hr : r.issues with
    | none => simp [issuesByCategory, issuesOf, hr]
    | some is =>
        simpa [issuesByCategory, issuesOf, hr] using
          length_filter_category_partition is

/-- Witness for C2: the sample issue lands in the perceivable list. -/
theorem issuesByCategory_partition_witness :
    sampleIssue ∈ issuesByCategory sampleReport .perceivable :=
  ((issuesByCategory_partition sampleReport).1 .perceivable sampleIssue).mpr
    ⟨by simp [issuesOf, sampleReport], rfl⟩

/-- C3: with issue ids unique within the report (spec §3), the fixes shown
under a tab are exactly the report's fixes whose `issue_id` matches an
existing issue of the tab's category; a fix whose `issue_id` matches no
issue appears under no tab. -/
theorem currentCategoryFixes_spec (r : Report)
    (hids : ((issuesOf r).map Issue.id).Nodup) :
    (∀ (tab : Category) (f : Fix),
      f ∈ currentCategoryFixes r tab ↔
        (f ∈ fixesOf r ∧ ∃ i ∈ issuesOf r, i.id = f.issue_id ∧ i.category = tab)) ∧
    (∀ f : Fix, (∀ i ∈ issuesOf r, i.id ≠ f.issue_id) →
      ∀ tab : Category, f ∉ currentCategoryFixes r tab) := by
  have hmain : ∀ (tab : Category) (f : Fix),
      f ∈ currentCategoryFixes r tab ↔
        (f ∈ fixesOf r ∧ ∃ i ∈ issuesOf r, i.id = f.issue_id ∧ i.category = tab) := by
    intro tab f
    have hpred : ((match (issuesOf r).find? (fun i => i.id == f.issue_id) with
        | some i => i.category == tab
        | none => false) = true) ↔
        (∃ i ∈ issuesOf r, i.id = f.issue_id ∧ i.category = tab) := by
      constructor
      · intro hp
        match hfind : (issuesOf r).find? (fun i => i.id == f.issue_id) with
        | none => rw [hfind] at hp; exact absurd hp (by simp)
        | some i =>
            rw [hfind] at hp
            refine ⟨i, List.mem_of_find?_eq_some hfind, ?_, ?_⟩
            · have := List.find?_some hfind
              exact beq_iff_eq.mp this
            · exact beq_iff_eq.mp hp
      · rintro ⟨i, hi, hid, hcat⟩
        have hsome : ((issuesOf r).find? (fun i => i.id == f.issue_id)).isSome := by
          rw [List.find?_isSome]
          exact ⟨i, hi, beq_iff_eq.mpr hid⟩
        match hfind : (issuesOf r).find? (fun i => i.id == f.issue_id) with
        | none => rw [hfind] at hsome; exact absurd hsome (by simp)
        | some j =>
            have hj : j ∈ issuesOf r := List.mem_of_find?_eq_some hfind
            have hjid0 := List.find?_some hfind
            have hjid : j.id = f.issue_id := beq_iff_eq.mp hjid0
            have hij : i = j :=
              List.inj_on_of_nodup_map hids hi hj (by rw [hid, hjid])
            rw [hfind]
            exact beq_iff_eq.mpr (by rw [← hij, hcat])
    match hr : r.fixes with
    | none => simp [currentCategoryFixes, fixesOf, hr]
    | some fs =>
        rw [currentCategoryFixes]
        simp only [hr, fixesOf, Option.getD_some, List.mem_filter]
        exact and_congr_right fun _ => hpred
  refine ⟨hmain, fun f hnone tab hmem => ?_⟩
  obtain ⟨-, i, hi, hid, -⟩ := (hmain tab f).mp hmem
  exact hnone i hi hid

/-- Witness for C3: the sample fix is listed under the perceivable tab. -/
theorem currentCategoryFixes_spec_witness :
    sampleFix ∈ currentCategoryFixes sampleReport .perceivable :=
  ((currentCategoryFixes_spec sampleReport (by decide)).1 .perceivable sampleFix).mpr
    ⟨by simp [fixesOf, sampleReport], sampleIssue,
      by simp [issuesOf, sampleReport], rfl, rfl⟩

/-- C6: a report with no issues and a summary consistent with that (every
count absent or zero) displays full compliance: the overall score is 100,
each of the four per-category percentages is 100, the fixed count is 0 and
the remaining count is 0. -/
theorem zeroIssue_full_compliance (r : Report) (h : zeroIssueReport r) :
    compliance r = 100 ∧ (∀ c : Category, categoryPct r c = 100) ∧
      totalFixed r = 0 ∧ remaining r = 0 := by
  obtain ⟨hi, hf, hti, htf, hrem, hp, ho, hu, hrb⟩ := h
  have hti0 : totalIssues r = 0 := by
    rcases hti with h | h <;> simp [totalIssues, h, hi]
  have htf0 : totalFixed r = 0 := by
    rcases htf with h | h <;> simp [totalFixed, h, hf]
  refine ⟨?_, ?_, htf0, ?_⟩
  · simp [compliance, hti0]
  · intro c
    have hpv : pourValue r c = 0 := by
      cases c
      · rcases hp with h | h <;> simp [pourValue, h]
      · rcases ho with h | h <;> simp [pourValue, h]
      · rcases hu with h | h <;> simp [pourValue, h]
      · rcases hrb with h | h <;> simp [pourValue, h]
    simp [categoryPct, hpv]
  · rcases hrem with h | h <;> simp [remaining, h, hti0, htf0]

/-- Witness for C6 at the all-absent report. -/
theorem zeroIssue_full_compliance_witness :
    zeroIssueReport emptyReport ∧ compliance emptyReport = 100 ∧
      (∀ c : Category, categoryPct emptyReport c = 100) ∧
      totalFixed emptyReport = 0 ∧ remaining emptyReport = 0 := by
  have h : zeroIssueReport emptyReport :=
    ⟨rfl, rfl, Or.inl rfl, Or.inl rfl, Or.inl rfl, Or.inl rfl, Or.inl rfl,
      Or.inl rfl, Or.inl rfl⟩
  exact ⟨h, zeroIssue_full_compliance emptyReport h⟩

/-- C9: with an empty accepted-file list `onDrop` returns at once — no
upload request, no navigation, and the error/isUploading state untouched;
and on a rejected upload no navigation occurs, the error becomes the
computed non-null message, and `isUploading` ends up `false`. -/
theorem onDrop_empty_and_reject (st : UploadState) :
    (∀ result, onDrop st [] result = (st, false)) ∧
    (∀ files e, files ≠ [] →
      (onDrop st files (.error e)).1.navigatedTo = st.navigatedTo ∧
      (onDrop st files (.error e)).1.error = some (uploadErrorMessage e) ∧
      (onDrop st files (.error e)).1.error ≠ none ∧
      (onDrop st files (.error e)).1.isUploading = false ∧
      (onDrop st files (.error e)).2 = true) := by
  constructor
  · intro result
    simp [onDrop]
  · intro files e hne
    have hlen : ¬ files.length = 0 := by simpa using hne
    simp [onDrop, hlen]

/-- Witness for C9: one dropped file and a detail-less rejection. -/
theorem onDrop_empty_and_reject_witness :
    ([⟨"a.zip"⟩] : List UFile) ≠ [] ∧
      (onDrop ⟨false, none, none⟩ [⟨"a.zip"⟩] (.error ⟨none⟩)).1.error ≠ none :=
  ⟨by simp,
    ((onDrop_empty_and_reject ⟨false, none, none⟩).2 [⟨"a.zip"⟩] ⟨none⟩
      (by simp)).2.2.1⟩

/-- `splitLines` never returns the empty list. -/
theorem splitLines_ne_nil (s : List Char) : splitLines s ≠ [] := by
  induction s with
  | nil => simp [splitLines]
  | cons c t ih =>
      show (match splitLines t with
        | [] => [[c]]
        | cur :: rest =>
            if c = '\n' then [] :: cur :: rest else (c :: cur) :: rest) ≠ []
      match h : splitLines t with
      | [] => simp
      | cur :: rest => by_cases hc : c = '\n' <;> simp [hc]

/-- `splitLines` yields exactly one piece per line: its length is the
newline count plus one. -/
theorem splitLines_length (s : List Char) :
    (splitLines s).length = s.count '\n' + 1 := by
  induction s with
  | nil => rfl
  | cons c t ih =>
      show (match splitLines t with
        | [] => [[c]]
        | cur :: rest =>
            if c = '\n' then [] :: cur :: rest else (c :: cur) :: rest).length
        = (c :: t).count '\n' + 1
      match h : splitLines t with
      | [] => exact absurd h (splitLines_ne_nil t)
      | cur :: rest =>
          rw [h] at ih
          by_cases hc : c = '\n'
          · subst hc
            simp only [List.count_cons, if_pos rfl, List.length_cons, beq_self_eq_true]
            simp at ih ⊢
            omega
          · have hcb : (c == '\n') = false := beq_eq_false_iff_ne.mpr hc
            simp only [List.count_cons, hcb, if_neg hc, List.length_cons]
            simp at ih ⊢
            omega

/-- C10: `renderDiffLines` is total on the embedded inputs, returns `null`
exactly on a null/empty diff, produces one element per line of
`diff.split('\n')` (newline count + 1 of them), renders every line with the
class of its own content, and classifies by first matching prefix: a line
beginning `@@` is a hunk header, a line beginning `---` or `+++` is a file
header (never a removal/addition), a `-` line not beginning `---` is a
removal, and a `+` line not beginning `+++` is an addition. -/
theorem renderDiffLines_spec :
    renderDiffLines none = none ∧
    renderDiffLines (some []) = none ∧
    (∀ s : List Char, s ≠ [] →
      ∃ ls, renderDiffLines (some s) = some ls ∧
        ls.length = (splitLines s).length ∧
        (splitLines s).length = s.count '\n' + 1 ∧
        ∀ dl ∈ ls, dl.cls = (classifyDiffLine dl.content).1 ∧
          dl.mark = (classifyDiffLine dl.content).2) ∧
    (∀ t : List Char, (classifyDiffLine ('@' :: '@' :: t)).1 = .hunkHeader) ∧
    (∀ t : List Char, (classifyDiffLine ('-' :: '-' :: '-' :: t)).1 = .fileHeader) ∧
    (∀ t : List Char, (classifyDiffLine ('+' :: '+' :: '+' :: t)).1 = .fileHeader) ∧
    (∀ t : List Char, ¬ ['-', '-'].isPrefixOf t = true →
      (classifyDiffLine ('-' :: t)).1 = .removed) ∧
    (∀ t : List Char, ¬ ['+', '+'].isPrefixOf t = true →
      (classifyDiffLine ('+' :: t)).1 = .added) := by
  refine ⟨rfl, rfl, ?_, ?_, ?_, ?_, ?_, ?_⟩
  · intro s hs
    refine ⟨(splitLines s).map
      (fun l => ⟨(classifyDiffLine l).1, (classifyDiffLine l).2, l⟩), ?_, ?_, ?_, ?_⟩
    · match s, hs with
      | c :: t, _ => rfl
    · simp
    · exact splitLines_length s
    · intro dl hdl
      obtain ⟨l, -, rfl⟩ := List.mem_map.mp hdl
      exact ⟨rfl, rfl⟩
  · intro t
    simp [classifyDiffLine, List.isPrefixOf]
  · intro t
    simp [classifyDiffLine, List.isPrefixOf]
  · intro t
    simp [classifyDiffLine, List.isPrefixOf]
  · intro t hng
    simp [classifyDiffLine, List.isPrefixOf, hng]
  · intro t hng
    simp [classifyDiffLine, List.isPrefixOf, hng]

/-- Witness for C10 at a concrete three-line diff. -/
theorem renderDiffLines_spec_witness :
    (['-', '-', '-', ' ', 'a', '\n', '-', 'x', '\n', '+', 'y'] : List Char) ≠ [] ∧
      ∃ ls, renderDiffLines
          (some ['-', '-', '-', ' ', 'a', '\n', '-', 'x', '\n', '+', 'y']) = some ls ∧
        ls.length = 3 := by
  refine ⟨by simp, ?_⟩
  obtain ⟨ls, hrender, hlen, hcount, -⟩ :=
    (renderDiffLines_spec).2.2.1
      ['-', '-', '-', ' ', 'a', '\n', '-', 'x', '\n', '+', 'y'] (by simp)
  exact ⟨ls, hrender, by rw [hlen, hcount]; decide⟩

/-! ### Association-list lemmas for the file map -/

/-- Updating never changes the key sequence. -/
theorem mapUpdate_fst (m : FileMap) (k : String) (f : FileRow → FileRow) :
    (mapUpdate m k f).map Prod.fst = m.map Prod.fst := by
  induction m with
  | nil => rfl
  | cons p rest ih =>
      obtain ⟨a, b⟩ := p
      by_cases h : a = k <;> simp [mapUpdate, h, ih]

/-- Lookup after an update: the updated key's row is mapped, others are
untouched. -/
theorem mapLookup_mapUpdate (m : FileMap) (k q : String) (f : FileRow → FileRow) :
    mapLookup (mapUpdate m k f) q =
      if q = k then (mapLookup m k).map f else mapLookup m q := by
  induction m with
  | nil => by_cases hq : q = k <;> simp [mapUpdate, mapLookup, hq]
  | cons p rest ih =>
      obtain ⟨a, b⟩ := p
      by_cases hak : a = k
      · subst hak
        by_cases hq : q = a
        · subst hq
          simp [mapUpdate, mapLookup]
        · have hq2 : ¬ a = q := fun h => hq h.symm
          simp [mapUpdate, mapLookup, hq, hq2]
      · by_cases haq : a = q
        · subst haq
          simp [mapUpdate, mapLookup, hak]
        · simp [mapUpdate, mapLookup, hak, haq, ih]

/-- Lookup in a concatenation: first map wins. -/
theorem mapLookup_append (m1 m2 : FileMap) (q : String) :
    mapLookup (m1 ++ m2) q =
      match mapLookup m1 q with
      | some v => some v
      | none => mapLookup m2 q := by
  induction m1 with
  | nil => simp [mapLookup]
  | cons p rest ih =>
      obtain ⟨a, b⟩ := p
      by_cases h : a = q <;> simp [mapLookup, h, ih]

/-- A key is absent exactly when lookup misses. -/
theorem mapLookup_eq_none (m : FileMap) (q : String) :
    mapLookup m q = none ↔ q ∉ m.map Prod.fst := by
  induction m with
  | nil => simp [mapLookup]
  | cons p rest ih =>
      obtain ⟨a, b⟩ := p
      simp only [mapLookup, List.map_cons, List.mem_cons]
      by_cases h : a = q
      · subst h
        simp
      · rw [if_neg h, ih]
        constructor
        · intro hn hor
          rcases hor with h1 | h2
          · exact h h1.symm
          · exact hn h2
        · intro hn hmem
          exact hn (Or.inr hmem)

/-- With distinct keys, membership determines lookup. -/
theorem mapLookup_of_mem (m : FileMap) (k : String) (v : FileRow)
    (hkeys : (m.map Prod.fst).Nodup) (hm : (k, v) ∈ m) :
    mapLookup m k = some v := by
  induction m with
  | nil => cases hm
  | cons p rest ih =>
      obtain ⟨a, b⟩ := p
      rcases List.mem_cons.mp hm with h | h
      · have h1 : k = a := congrArg Prod.fst h
        have h2 : v = b := congrArg Prod.snd h
        subst h1
        subst h2
        simp [mapLookup]
      · have hka : ¬ a = k := by
          intro hak
          subst hak
          exact (List.nodup_cons.mp hkeys).1
            (List.mem_map.mpr ⟨(a, v), h, rfl⟩)
        simpa [mapLookup, hka] using ih (List.nodup_cons.mp hkeys).2 h

/-! ### Characterising the issues pass -/

/-- The empty issue list contributes nothing. -/
theorem issueContrib_nil (k : String) (row : FileRow) :
    issueContrib [] k row = row := by
  obtain ⟨t, fx, cp, co, cu, cr⟩ := row
  simp [issueContrib]

/-- Peeling one issue off the contribution. -/
theorem issueContrib_cons (i : Issue) (tl : List Issue) (k : String) (row : FileRow) :
    issueContrib (i :: tl) k row =
      if i.file_path = k then issueContrib tl k (bumpIssue row i.category)
      else issueContrib tl k row := by
  obtain ⟨t, fx, cp, co, cu, cr⟩ := row
  by_cases hp : i.file_path = k
  · have hb : (i.file_path == k) = true := beq_iff_eq.mpr hp
    cases hc : i.category <;>
      simp [issueContrib, bumpIssue, List.countP_cons, hb, hc, hp,
        FileRow.mk.injEq, beq_iff_eq] <;>
      omega
  · have hb : (i.file_path == k) = false := beq_eq_false_iff_ne.mpr hp
    simp [issueContrib, List.countP_cons, hb, hp]

/-- Lookup after one `issues.forEach` step. -/
theorem mapLookup_addIssueToMap (m : FileMap) (i : Issue) (q : String) :
    mapLookup (addIssueToMap m i) q =
      if q = i.file_path
      then some (bumpIssue ((mapLookup m i.file_path).getD emptyFileRow) i.category)
      else mapLookup m q := by
  unfold addIssueToMap
  by_cases hs : (mapLookup m i.file_path).isSome
  · obtain ⟨v, hv⟩ := Option.isSome_iff_exists.mp hs
    rw [if_pos hs, mapLookup_mapUpdate]
    by_cases hq : q = i.file_path <;> simp [hq, hv]
  · have hnone : mapLookup m i.file_path = none :=
      Option.not_isSome_iff_eq_none.mp hs
    rw [if_neg hs, mapLookup_mapUpdate]
    by_cases hq : q = i.file_path
    · subst hq
      simp [mapLookup_append, hnone, mapLookup]
    · rw [if_neg hq, if_neg hq, mapLookup_append]
      have hne : ¬ i.file_path = q := fun h => hq h.symm
      cases h : mapLookup m q <;> simp [mapLookup, hne]

/-- Lookup after the whole issues pass, for any starting map. -/
theorem mapLookup_foldl_addIssue (is : List Issue) (m : FileMap) (q : String) :
    mapLookup (is.foldl addIssueToMap m) q =
      if (mapLookup m q).isSome ∨ is.countP (fun i => i.file_path == q) ≠ 0
      then some (issueContrib is q ((mapLookup m q).getD emptyFileRow))
      else none := by
  induction is generalizing m with
  | nil =>
      cases h : mapLookup m q <;> simp [h, issueContrib_nil]
  | cons i tl ih =>
      rw [List.foldl_cons, ih, mapLookup_addIssueToMap]
      by_cases hq : q = i.file_path
      · subst hq
        simp [List.countP_cons, issueContrib_cons]
      · have hkne : ¬ i.file_path = q := fun h => hq h.symm
        have hbf : (i.file_path == q) = false := beq_eq_false_iff_ne.mpr hkne
        simp [hq, hkne, hbf, List.countP_cons, issueContrib_cons]

/-- Keys after one `issues.forEach` step. -/
theorem fst_addIssueToMap (m : FileMap) (i : Issue) :
    (addIssueToMap m i).map Prod.fst =
      if (mapLookup m i.file_path).isSome then m.map Prod.fst
      else m.map Prod.fst ++ [i.file_path] := by
  unfold addIssueToMap
  by_cases hs : (mapLookup m i.file_path).isSome <;>
    simp [hs, mapUpdate_fst]

/-- The issues pass keeps the keys pairwise distinct. -/
theorem nodup_fst_foldl_addIssue (is : List Issue) (m : FileMap)
    (h : (m.map Prod.fst).Nodup) :
    ((is.foldl addIssueToMap m).map Prod.fst).Nodup := by
  induction is generalizing m with
  | nil => exact h
  | cons i tl ih =>
      rw [List.foldl_cons]
      apply ih
      rw [fst_addIssueToMap]
      by_cases hs : (mapLookup m i.file_path).isSome
      · simpa [hs] using h
      · have hnm : i.file_path ∉ m.map Prod.fst :=
          (mapLookup_eq_none m i.file_path).mp (Option.not_isSome_iff_eq_none.mp hs)
        simp [hs, List.nodup_append, h, hnm]

/-! ### Characterising the fixes pass -/

/-- One `fixes.forEach` step never changes the key sequence. -/
theorem fst_addFixToMap (issues : List Issue) (m : FileMap) (f : Fix) :
    (addFixToMap issues m f).map Prod.fst = m.map Prod.fst := by
  unfold addFixToMap
  cases h : issues.find? (fun i => i.id == f.issue_id) with
  | none => rfl
  | some i =>
      by_cases hg : i.file_path ≠ "" ∧ (mapLookup m i.file_path).isSome <;>
        simp [hg, mapUpdate_fst]

/-- Lookup after the whole fixes pass: each key's `fixed` counter grows by
the number of fixes resolving to that (truthy) key. -/
theorem mapLookup_foldl_addFix (issues : List Issue) (fs : List Fix) (m : FileMap)
    (q : String) :
    mapLookup (fs.foldl (addFixToMap issues) m) q =
      (mapLookup m q).map (fun row =>
        { row with fixed := row.fixed + fs.countP (fun f => fixHitsKey issues q f) }) := by
  induction fs generalizing m with
  | nil =>
      cases h : mapLookup m q <;> simp [h]
  | cons f fs ih =>
      rw [List.foldl_cons, ih]
      cases hfind : issues.find? (fun i => i.id == f.issue_id) with
      | none =>
          have hres : resolvedFile issues f = none := by simp [resolvedFile, hfind]
          have hpf : fixHitsKey issues q f = false := by
            simp [fixHitsKey, hres]
          have hm : addFixToMap issues m f = m := by
            unfold addFixToMap
            rw [hfind]
          rw [hm]
          simp [List.countP_cons, hpf]
      | some i =>
          have hres : resolvedFile issues f = some i.file_path := by
            simp [resolvedFile, hfind]
          by_cases hg : i.file_path ≠ "" ∧ (mapLookup m i.file_path).isSome
          · have hm : addFixToMap issues m f = mapUpdate m i.file_path bumpFixed := by
              unfold addFixToMap
              rw [hfind]
              exact if_pos hg
            rw [hm, mapLookup_mapUpdate]
            by_cases hq : q = i.file_path
            · subst hq
              obtain ⟨v, hv⟩ := Option.isSome_iff_exists.mp hg.2
              have hqe : (i.file_path == "") = false := beq_eq_false_iff_ne.mpr hg.1
              have hpf : fixHitsKey issues i.file_path f = true := by
                simp [fixHitsKey, hres, hqe]
              obtain ⟨t, fx, cp, co, cu, cr⟩ := v
              simp [hv, List.countP_cons, bumpFixed, hpf, FileRow.mk.injEq]
              omega
            · have hx : (resolvedFile issues f == some q) = false :=
                beq_eq_false_iff_ne.mpr (by
                  rw [hres]
                  intro hcontra
                  exact hq (Option.some.inj hcontra).symm)
              have hpf : fixHitsKey issues q f = false := by
                simp [fixHitsKey, hx]
              rw [if_neg hq]
              simp [List.countP_cons, hpf]
          · have hm : addFixToMap issues m f = m := by
              unfold addFixToMap
              rw [hfind]
              exact if_neg hg
            rw [hm]
            by_cases hq : q = i.file_path
            · subst hq
              rcases not_and_or.mp hg with hpe | hns
              · have hq0 : i.file_path = "" := not_not.mp hpe
                have hpf : fixHitsKey issues i.file_path f = false := by
                  simp [fixHitsKey, beq_iff_eq.mpr hq0]
                simp [List.countP_cons, hpf]
              · have hnone : mapLookup m i.file_path = none :=
                  Option.not_isSome_iff_eq_none.mp hns
                simp [hnone]
            · have hx : (resolvedFile issues f == some q) = false :=
                beq_eq_false_iff_ne.mpr (by
                  rw [hres]
                  intro hcontra
                  exact hq (Option.some.inj hcontra).symm)
              have hpf : fixHitsKey issues q f = false := by
                simp [fixHitsKey, hx]
              simp [List.countP_cons, hpf]

/-! ### Counting resolved fixes -/

/-- Resolving every fix of a list along `issues.find`: the resolved list
has the same length and carries the same ids. -/
theorem filterMap_find_spec (issues : List Issue) (l : List Fix)
    (h : ∀ f ∈ l, (issues.find? (fun i => i.id == f.issue_id)).isSome) :
    ((l.filterMap fun f => issues.find? (fun i => i.id == f.issue_id)).length
        = l.length) ∧
      ((l.filterMap fun f => issues.find? (fun i => i.id == f.issue_id)).map Issue.id
        = l.map Fix.issue_id) := by
  induction l with
  | nil => exact ⟨rfl, rfl⟩
  | cons f tl ih =>
      have hf := h f (List.mem_cons_self _ _)
      obtain ⟨i, hi⟩ := Option.isSome_iff_exists.mp hf
      have hid0 := List.find?_some hi
      have hid : i.id = f.issue_id := beq_iff_eq.mp hid0
      have ihh := ih fun g hg => h g (List.mem_cons_of_mem _ hg)
      simp [List.filterMap_cons, hi, ihh.1, ihh.2, hid]

/-- With at most one fix per issue (pairwise distinct `issue_id`s), the
fixes resolving to a file are at most as many as that file's issues. -/
theorem countP_resolved_le (issues : List Issue) (fixes : List Fix) (k : String)
    (hnodup : (fixes.map Fix.issue_id).Nodup) :
    fixes.countP (fun f => resolvedFile issues f == some k) ≤
      issues.countP (fun i => i.file_path == k) := by
  have hresl : ∀ f ∈ fixes.filter (fun f => resolvedFile issues f == some k),
      (issues.find? (fun i => i.id == f.issue_id)).isSome := by
    intro f hf
    have hp := (List.mem_filter.mp hf).2
    have hpe : resolvedFile issues f = some k := beq_iff_eq.mp hp
    rw [resolvedFile] at hpe
    obtain ⟨i, hi, -⟩ := Option.map_eq_some'.mp hpe
    simp [hi]
  obtain ⟨hlen, hids⟩ := filterMap_find_spec issues _ hresl
  have hsubl : ((fixes.filter (fun f => resolvedFile issues f == some k)).map
      Fix.issue_id).Sublist (fixes.map Fix.issue_id) :=
    (List.filter_sublist _).map _
  have hnod2 : ((fixes.filter (fun f => resolvedFile issues f == some k)).filterMap
      fun f => issues.find? (fun i => i.id == f.issue_id)).Nodup := by
    apply List.Nodup.of_map Issue.id
    rw [hids]
    exact List.Nodup.sublist hsubl hnodup
  have hsubset : ((fixes.filter (fun f => resolvedFile issues f == some k)).filterMap
      fun f => issues.find? (fun i => i.id == f.issue_id)) ⊆
        issues.filter (fun i => i.file_path == k) := by
    intro x hx
    obtain ⟨f, hf, hfind⟩ := List.mem_filterMap.mp hx
    have hmem : x ∈ issues := List.mem_of_find?_eq_some hfind
    have hpk : resolvedFile issues f = some k :=
      beq_iff_eq.mp (List.mem_filter.mp hf).2
    rw [resolvedFile, hfind] at hpk
    have hxk : x.file_path = k := by simpa using hpk
    exact List.mem_filter.mpr ⟨hmem, beq_iff_eq.mpr hxk⟩
  have hle := (List.Nodup.subperm hnod2 hsubset).length_le
  rw [List.countP_eq_length_filter, List.countP_eq_length_filter]
  omega

/-- C7 (counterexample): the claim as stated is false.  In a report with a
single issue whose `file_path` is the empty string and a single fix
referencing it, both claim hypotheses hold (distinct fix `issue_id`s,
every fix resolves), yet the file-analysis row for `""` has `fixed = 0`
while one fix's referenced issue lies in that file: the truthiness guard
`issue?.file_path &&` of the fixes pass drops the fix. -/
theorem fileAnalysisRows_claim_counterexample :
    ((fixesOf emptyPathReport).map Fix.issue_id).Nodup ∧
    (∀ f ∈ fixesOf emptyPathReport,
      ((issuesOf emptyPathReport).find? (fun i => i.id == f.issue_id)).isSome) ∧
    ¬ (∀ row ∈ fileAnalysisRows (issuesOf emptyPathReport) (fixesOf emptyPathReport),
        row.total = (issuesOf emptyPathReport).countP
          (fun i => i.file_path == row.file) ∧
        row.fixed = (fixesOf emptyPathReport).countP
          (fun f => resolvedFile (issuesOf emptyPathReport) f == some row.file) ∧
        row.remaining = (row.total : Int) - (row.fixed : Int) ∧
        row.fixed ≤ row.total ∧ 0 ≤ row.remaining) := by
  decide

/-- C7 (amended): in a report where each issue has at most one fix
referencing it, every fix's `issue_id` resolves to some issue, and —
forced by the counterexample — every issue's `file_path` is non-empty
(truthy), every file-analysis row satisfies: `total` counts the issues of
that file, `fixed` counts the fixes whose referenced issue lies in that
file, `remaining = total − fixed`, and `remaining ≥ 0`. -/
theorem fileAnalysisRows_spec (r : Report)
    (hnodup : ((fixesOf r).map Fix.issue_id).Nodup)
    (hres : ∀ f ∈ fixesOf r,
      ((issuesOf r).find? (fun i => i.id == f.issue_id)).isSome)
    (hpath : ∀ i ∈ issuesOf r, i.file_path ≠ "") :
    ∀ row ∈ fileAnalysisRows (issuesOf r) (fixesOf r),
      row.total = (issuesOf r).countP (fun i => i.file_path == row.file) ∧
      row.fixed = (fixesOf r).countP
        (fun f => resolvedFile (issuesOf r) f == some row.file) ∧
      row.remaining = (row.total : Int) - (row.fixed : Int) ∧
      row.fixed ≤ row.total ∧ 0 ≤ row.remaining := by
  intro row hrow
  obtain ⟨p, hp, hrow2⟩ := List.mem_map.mp hrow
  obtain ⟨k, v⟩ := p
  have hkeys : ((buildFileMap (issuesOf r) (fixesOf r)).map Prod.fst).Nodup := by
    rw [buildFileMap]
    have hfst : ∀ (fs : List Fix) (m : FileMap),
        ((fs.foldl (addFixToMap (issuesOf r)) m).map Prod.fst) = m.map Prod.fst := by
      intro fs
      induction fs with
      | nil => intro m; rfl
      | cons f fs ih =>
          intro m
          rw [List.foldl_cons, ih, fst_addFixToMap]
    rw [hfst]
    exact nodup_fst_foldl_addIssue _ [] (by simp)
  have hlook : mapLookup (buildFileMap (issuesOf r) (fixesOf r)) k = some v :=
    mapLookup_of_mem _ _ _ hkeys hp
  rw [buildFileMap, mapLookup_foldl_addFix] at hlook
  obtain ⟨v0, hv0, hFv⟩ := Option.map_eq_some'.mp hlook
  rw [mapLookup_foldl_addIssue] at hv0
  rw [show mapLookup [] k = none from rfl] at hv0
  simp only [Option.isSome_none, Bool.false_eq_true, false_or, Option.getD_none] at hv0
  by_cases hc : (issuesOf r).countP (fun i => i.file_path == k) ≠ 0
  · rw [if_pos hc] at hv0
    have hv0e : issueContrib (issuesOf r) k emptyFileRow = v0 := Option.some.inj hv0
    obtain ⟨iw, hiw, hpw⟩ :=
      List.countP_pos_iff.mp (Nat.pos_of_ne_zero hc)
    have hkne : k ≠ "" := by
      have hwk : iw.file_path = k := beq_iff_eq.mp hpw
      rw [← hwk]
      exact hpath iw hiw
    have hkb : (k == "") = false := beq_eq_false_iff_ne.mpr hkne
    simp only [fixHitsKey, hkb, Bool.not_false, Bool.and_true] at hFv
    have hv0total : v0.total = (issuesOf r).countP (fun i => i.file_path == k) := by
      rw [← hv0e]
      simp [issueContrib, emptyFileRow]
    have hv0fixed : v0.fixed = 0 := by
      rw [← hv0e]
      simp [issueContrib, emptyFileRow]
    have hvtotal : v.total = (issuesOf r).countP (fun i => i.file_path == k) := by
      rw [← hFv, ← hv0total]
    have hvfixed : v.fixed = (fixesOf r).countP
        (fun f => resolvedFile (issuesOf r) f == some k) := by
      rw [← hFv]
      simp [hv0fixed]
    subst hrow2
    refine ⟨hvtotal, hvfixed, rfl, ?_, ?_⟩
    · rw [hvtotal, hvfixed]
      exact countP_resolved_le (issuesOf r) (fixesOf r) k hnodup
    · have hle : v.fixed ≤ v.total := by
        rw [hvtotal, hvfixed]
        exact countP_resolved_le (issuesOf r) (fixesOf r) k hnodup
      simp only []
      omega
  · rw [if_neg hc] at hv0
    cases hv0

/-- Witness for C7 at the one-issue/one-fix sample report. -/
theorem fileAnalysisRows_spec_witness :
    ((fixesOf sampleReport).map Fix.issue_id).Nodup ∧
      (∀ f ∈ fixesOf sampleReport,
        ((issuesOf sampleReport).find? (fun i => i.id == f.issue_id)).isSome) ∧
      (∀ i ∈ issuesOf sampleReport, i.file_path ≠ "") ∧
      ∀ row ∈ fileAnalysisRows (issuesOf sampleReport) (fixesOf sampleReport),
        row.remaining = (row.total : Int) - (row.fixed : Int) ∧
          0 ≤ row.remaining := by
  have h1 : ((fixesOf sampleReport).map Fix.issue_id).Nodup := by decide
  have h2 : ∀ f ∈ fixesOf sampleReport,
      ((issuesOf sampleReport).find? (fun i => i.id == f.issue_id)).isSome := by
    decide
  have h3 : ∀ i ∈ issuesOf sampleReport, i.file_path ≠ "" := by decide
  refine ⟨h1, h2, h3, fun row hrow => ?_⟩
  have hall := fileAnalysisRows_spec sampleReport h1 h2 h3 row hrow
  exact ⟨hall.2.2.1, hall.2.2.2.2⟩

end DFInfoUI
